import Mathlib

/-!
Verification of the `imake` terminal dashboard (src/main.go) against its
natural-language specification.

The Go program is shallowly embedded: pure computations become Lean
functions, the gocui update queue becomes an explicit list of queued
updates folded over view state, and Go maps become association lists with
overwrite-on-insert (their unspecified iteration order is modelled by
quantifying over permutations of the entries).  Strings are handled as
`List Char` where character-level reasoning is needed, with `String`
wrappers at the interface.  `float64` arithmetic in the layout engine is
modelled exactly over `ℚ` (all quantities involved are nonnegative, so
Go's truncating `int(...)` conversion coincides with `Int.floor`).
-/

namespace IMake

/-! ## Catalog parsing (`readMakefile`, src/main.go lines 282-309) -/

/-- Character class of the Go regular expression `[a-zA-Z0-9_-]`. -/
def isIdentChar (c : Char) : Bool :=
  c.isAlpha || c.isDigit || c == '_' || c == '-'

/-- Scanning part of the anchored regular expression match: succeeds when a
(possibly empty) run of identifier characters is immediately followed by a
colon. -/
def identThenColon : List Char → Bool
  | [] => false
  | c :: rest => if c == ':' then true else isIdentChar c && identThenColon rest

/-- Embedding of `regexp.MustCompile("^[a-zA-Z0-9_-]+:").MatchString line`:
at least one identifier character at the start of the line, immediately
followed by a colon. -/
def regexMatchTarget : List Char → Bool
  | [] => false
  | c :: rest => isIdentChar c && identThenColon rest

/-- Embedding of `strings.Contains(line, ":")`. -/
def containsColon (l : List Char) : Bool :=
  l.any (fun c => c == ':')

/-- Embedding of `strings.HasPrefix(line, "\t")`. -/
def startsWithTab : List Char → Bool
  | '\t' :: _ => true
  | _ => false

/-- Embedding of `strings.HasPrefix(line, ".")`. -/
def startsWithDot : List Char → Bool
  | '.' :: _ => true
  | _ => false

/-- Pattern match at the current position (helper for substring search). -/
def matchHere : List Char → List Char → Bool
  | [], _ => true
  | _ :: _, [] => false
  | p :: ps, c :: cs => p == c && matchHere ps cs

/-- Embedding of `strings.Contains(line, pat)`: substring occurrence. -/
def containsSub (pat : List Char) : List Char → Bool
  | [] => matchHere pat []
  | l@(_ :: rest) => matchHere pat l || containsSub pat rest

/-- The phony marker token `"PHONY"` checked by `readMakefile`. -/
def phonyTok : List Char := [ 'P', 'H', 'O', 'N', 'Y' ]

/-- The acceptance condition of `readMakefile` for a single line
(src/main.go lines 293-297), exactly the conjunction in the Go `if`. -/
def acceptLine (l : List Char) : Bool :=
  containsColon l && !startsWithTab l && !startsWithDot l &&
    !containsSub phonyTok l && regexMatchTarget l

/-- Embedding of `strings.SplitN(line, ":", 2)[0]`: the prefix of the line
up to (excluding) the first colon. -/
def targetOf (l : List Char) : List Char :=
  l.takeWhile (fun c => !(c == ':'))

/-- Embedding of `strings.SplitN(line, ":", 2)[1]`: everything after the
first colon (the line is only used when it contains a colon). -/
def afterColon (l : List Char) : List Char :=
  (l.dropWhile (fun c => !(c == ':'))).tail

/-- Embedding of `strings.TrimSpace`: drop whitespace at both ends. -/
def trimBoth (l : List Char) : List Char :=
  (((l.dropWhile Char.isWhitespace).reverse).dropWhile Char.isWhitespace).reverse

/-- Documentation value extracted from an accepted line:
`strings.TrimSpace(parts[1])`. -/
def docOf (l : List Char) : List Char :=
  trimBoth (afterColon l)

/-- Go map assignment `m[k] = v`: overwrite the binding of `k` when present,
otherwise add a new binding. -/
def mapInsert (k v : List Char) :
    List (List Char × List Char) → List (List Char × List Char)
  | [] => [(k, v)]
  | (k2, v2) :: rest =>
      if k = k2 then (k, v) :: rest else (k2, v2) :: mapInsert k v rest

/-- Go map lookup `m[k]` as an `Option`. -/
def lookupL (k : List Char) : List (List Char × List Char) → Option (List Char)
  | [] => none
  | (k2, v) :: rest => if k = k2 then some v else lookupL k rest

/-- One iteration of the `readMakefile` scan loop for one line. -/
def scanStep (m : List (List Char × List Char)) (l : List Char) :
    List (List Char × List Char) :=
  if acceptLine l then mapInsert (targetOf l) (docOf l) m else m

/-- The whole `readMakefile` scan over the file's lines, in file order. -/
def readMakefileL (lines : List (List Char)) : List (List Char × List Char) :=
  lines.foldl scanStep []

/-- Drop a single trailing carriage return, as `bufio.ScanLines` does. -/
def stripCR (l : List Char) : List Char :=
  match l.getLast? with
  | some '\r' => l.dropLast
  | _ => l

/-- Accumulating splitter behind `splitLines`. -/
def splitLinesAux : List Char → List Char → List (List Char)
  | acc, [] => [stripCR acc.reverse]
  | acc, c :: rest =>
      if c == '\n' then stripCR acc.reverse :: splitLinesAux [] rest
      else splitLinesAux (c :: acc) rest

/-- Embedding of a `bufio.Scanner` with the default `ScanLines` split: the
lines of the input, with no empty final token when the input ends in a
newline, and per-line trailing carriage returns stripped. -/
def splitLines (s : List Char) : List (List Char) :=
  match s with
  | [] => []
  | _ =>
      if s.getLast? = some '\n' then (splitLinesAux [] s).dropLast
      else splitLinesAux [] s

/-- The full `readMakefile` pipeline on a file content given as a `String`,
returning the accumulated target-to-documentation catalog. -/
def readMakefileModel (input : String) : List (String × String) :=
  (readMakefileL (splitLines input.toList)).map
    (fun p => (String.mk p.1, String.mk p.2))

/-- Claim-side grammar of a target line, phrased as the spec phrases it:
the prefix up to the first colon is a nonempty run of identifier
characters. -/
def identPrefixToColon (l : List Char) : Bool :=
  !(l.takeWhile (fun c => !(c == ':'))).isEmpty &&
    (l.takeWhile (fun c => !(c == ':'))).all isIdentChar

/-- Claim-side acceptance condition for a line, in the spec's wording:
contains a colon, does not begin with a tab, does not begin with a dot,
does not contain the phony marker token, and the prefix up to the first
colon matches the identifier pattern. -/
def specAcceptLine (l : List Char) : Bool :=
  containsColon l && !startsWithTab l && !startsWithDot l &&
    !containsSub phonyTok l && identPrefixToColon l

/-- A line that `readMakefile` accepts and whose target is `t`. -/
def lineDefines (t : List Char) (l : List Char) : Bool :=
  acceptLine l && decide (targetOf l = t)

/-- The documentation of the last line in file order that is accepted and
defines target `t` (the first such line of the reversed file). -/
def lastDocFor (t : List Char) (lines : List (List Char)) : Option (List Char) :=
  (lines.reverse.find? (lineDefines t)).map docOf

lemma containsColon_cons (c : Char) (rest : List Char) :
    containsColon (c :: rest) = ((c == ':') || containsColon rest) := by
  simp [containsColon]

lemma identThenColon_eq_all (l : List Char) (h : containsColon l = true) :
    identThenColon l = (l.takeWhile (fun c => !(c == ':'))).all isIdentChar := by
  induction l with
  | nil => simp [containsColon] at h
  | cons c rest ih =>
      cases hc : c == ':' with
      | true => simp [identThenColon, hc, List.takeWhile_cons]
      | false =>
          have hrest : containsColon rest = true := by
            rw [containsColon_cons, hc, Bool.false_or] at h
            exact h
          simp [identThenColon, hc, List.takeWhile_cons, ih hrest]

lemma regexMatchTarget_eq_identPrefixToColon (l : List Char)
    (h : containsColon l = true) :
    regexMatchTarget l = identPrefixToColon l := by
  cases l with
  | nil => simp [containsColon] at h
  | cons c rest =>
      cases hc : c == ':' with
      | true =>
          have hcc : c = ':' := by simpa using hc
          subst hcc
          simp [regexMatchTarget, identPrefixToColon, List.takeWhile_cons,
            show isIdentChar ':' = false from rfl]
      | false =>
          have hrest : containsColon rest = true := by
            rw [containsColon_cons, hc, Bool.false_or] at h
            exact h
          simp [regexMatchTarget, identPrefixToColon, List.takeWhile_cons, hc,
            List.all_cons, List.isEmpty_cons,
            identThenColon_eq_all rest hrest, Bool.and_left_comm]

/-- C5: the catalog load admits exactly the lines containing a colon, not
beginning with a tab, not beginning with a dot, not containing the phony
marker token, and whose prefix up to the first colon is a nonempty run of
identifier characters; the value is the remainder after the first colon,
trimmed.  On the spec's example input the catalog is exactly
`build ↦ compile the project`. -/
theorem c5_catalog_grammar :
    (∀ l : List Char, acceptLine l = specAcceptLine l) ∧
    readMakefileModel "build: compile the project\n\t@echo hi\n.PHONY: build\n"
      = [("build", "compile the project")] := by
  refine ⟨fun l => ?_, by decide⟩
  unfold acceptLine specAcceptLine
  by_cases h : containsColon l = true
  · rw [regexMatchTarget_eq_identPrefixToColon l h]
  · rw [Bool.not_eq_true] at h
    simp [h]

lemma lookupL_mapInsert (m : List (List Char × List Char)) (k v t : List Char) :
    lookupL t (mapInsert k v m) = if t = k then some v else lookupL t m := by
  induction m with
  | nil => simp [mapInsert, lookupL]
  | cons p rest ih =>
      obtain ⟨k2, v2⟩ := p
      by_cases hk : k = k2
      · subst hk
        by_cases ht : t = k <;> simp [mapInsert, lookupL, ht]
      · by_cases ht : t = k2
        · subst ht
          have htk : ¬t = k := fun hh => hk hh.symm
          simp [mapInsert, hk, lookupL, htk]
        · simp [mapInsert, hk, lookupL, ht, ih]

lemma mem_keys_mapInsert (m : List (List Char × List Char)) (k v x : List Char) :
    x ∈ (mapInsert k v m).map Prod.fst ↔ x = k ∨ x ∈ m.map Prod.fst := by
  induction m with
  | nil => simp [mapInsert]
  | cons p rest ih =>
      obtain ⟨k2, v2⟩ := p
      by_cases hk : k = k2
      · subst hk
        rw [show mapInsert k v ((k, v2) :: rest) = (k, v) :: rest from by
          simp [mapInsert]]
        simp only [List.map_cons, List.mem_cons]
        tauto
      · rw [show mapInsert k v ((k2, v2) :: rest) = (k2, v2) :: mapInsert k v rest
          from by simp [mapInsert, hk]]
        simp only [List.map_cons, List.mem_cons, ih]
        tauto

lemma nodup_keys_mapInsert (m : List (List Char × List Char)) (k v : List Char)
    (h : (m.map Prod.fst).Nodup) : ((mapInsert k v m).map Prod.fst).Nodup := by
  induction m with
  | nil => simp [mapInsert]
  | cons p rest ih =>
      obtain ⟨k2, v2⟩ := p
      rw [List.map_cons, List.nodup_cons] at h
      by_cases hk : k = k2
      · subst hk
        rw [show mapInsert k v ((k, v2) :: rest) = (k, v) :: rest from by
          simp [mapInsert]]
        rw [List.map_cons, List.nodup_cons]
        exact h
      · rw [show mapInsert k v ((k2, v2) :: rest) = (k2, v2) :: mapInsert k v rest
          from by simp [mapInsert, hk]]
        rw [List.map_cons, List.nodup_cons]
        refine ⟨fun hmem => ?_, ih h.2⟩
        rcases (mem_keys_mapInsert rest k v k2).mp hmem with h1 | h1
        · exact hk h1.symm
        · exact h.1 h1

lemma lookupL_scanStep (m : List (List Char × List Char)) (l t : List Char) :
    lookupL t (scanStep m l)
      = if lineDefines t l then some (docOf l) else lookupL t m := by
  unfold scanStep lineDefines
  by_cases ha : acceptLine l = true
  · rw [if_pos ha, lookupL_mapInsert]
    by_cases ht : targetOf l = t
    · simp [ha, ht]
    · have ht2 : ¬t = targetOf l := fun hh => ht hh.symm
      simp [ha, ht, ht2]
  · rw [Bool.not_eq_true] at ha
    simp [ha]

lemma lookupL_foldl_scanStep (lines : List (List Char))
    (m : List (List Char × List Char)) (t : List Char) :
    lookupL t (lines.foldl scanStep m)
      = (lastDocFor t lines).or (lookupL t m) := by
  induction lines generalizing m with
  | nil => simp [lastDocFor]
  | cons l ls ih =>
      have hfind : lastDocFor t (l :: ls)
          = (lastDocFor t ls).or
              (if lineDefines t l then some (docOf l) else none) := by
        unfold lastDocFor
        rw [List.reverse_cons, List.find?_append, List.find?_singleton]
        cases hls : (ls.reverse.find? (lineDefines t)) with
        | none =>
            by_cases hd : lineDefines t l = true
            · simp [hd]
            · rw [Bool.not_eq_true] at hd
              simp [hd]
        | some x => simp
      rw [List.foldl_cons, ih, hfind, lookupL_scanStep]
      cases lastDocFor t ls with
      | none =>
          by_cases hd : lineDefines t l = true
          · simp [hd]
          · rw [Bool.not_eq_true] at hd
            simp [hd]
      | some d => rfl

lemma nodup_keys_foldl_scanStep (lines : List (List Char))
    (m : List (List Char × List Char)) (h : (m.map Prod.fst).Nodup) :
    ((lines.foldl scanStep m).map Prod.fst).Nodup := by
  induction lines generalizing m with
  | nil => simpa
  | cons l ls ih =>
      rw [List.foldl_cons]
      refine ih _ ?_
      unfold scanStep
      by_cases ha : acceptLine l = true
      · rw [if_pos ha]
        exact nodup_keys_mapInsert m _ _ h
      · rw [Bool.not_eq_true] at ha
        simpa [ha]

/-- C9: when several accepted lines share a target name, the catalog binds
that name to the documentation of the last such line in file order, and
the resulting mapping has pairwise-distinct keys. -/
theorem c9_last_binding_wins (lines : List (List Char)) :
    ((readMakefileL lines).map Prod.fst).Nodup ∧
    ∀ t, lookupL t (readMakefileL lines) = lastDocFor t lines := by
  refine ⟨nodup_keys_foldl_scanStep lines [] (by simp), fun t => ?_⟩
  unfold readMakefileL
  rw [lookupL_foldl_scanStep]
  cases lastDocFor t lines with
  | none => rfl
  | some d => rfl

/-! ## Layout engine (`GridLayout`, src/main.go lines 128-167) -/

/-- One entry of the grid configuration passed to `GridLayout`
(src/main.go lines 24-34): name, width/height and position in 12×12 grid
units.  All fields are nonnegative in the program. -/
structure GridCellSpec where
  name : String
  width : ℕ
  height : ℕ
  xPos : ℕ
  yPos : ℕ
deriving DecidableEq

/-- A view rectangle `(x0, y0)`–`(x1, y1)`. -/
structure Rect where
  x0 : ℤ
  y0 : ℤ
  x1 : ℤ
  y1 : ℤ
deriving DecidableEq

/-- Rectangle computed by `GridLayout` for one cell (src/main.go lines
137-154).  The Go `float64` arithmetic is modelled exactly over `ℚ`; every
intermediate quantity is nonnegative, so Go's truncating `int(...)`
conversion coincides with `Int.floor`.  The clamp fires only when both the
right and the bottom edge are `≤ 0` (the `&&` in the Go condition). -/
def computeRect (maxX maxY : ℕ) (cell : GridCellSpec) : Rect :=
  let unitX : ℚ := (maxX : ℚ) / 12
  let unitY : ℚ := (maxY : ℚ) / 12
  let width : ℚ := (cell.width : ℚ) * unitX
  let height : ℚ := (cell.height : ℚ) * unitY
  let xPos : ℚ := (cell.xPos : ℚ) * unitX
  let yPos : ℚ := (cell.yPos : ℚ) * unitY
  let x0 : ℤ := Int.floor xPos
  let y0 : ℤ := Int.floor yPos
  let x1 : ℤ := Int.floor (xPos + width) - 1
  let y1 : ℤ := Int.floor (yPos + height) - 1
  if x1 ≤ 0 ∧ y1 ≤ 0 then ⟨x0, y0, 1, 1⟩ else ⟨x0, y0, x1, y1⟩

/-- Rectangle assignment in the wording of claim C4: corners truncated from
the real-valued products, and the result clamped to a minimum 1×1
rectangle whenever the right edge is `≤ 0` or the bottom edge is `≤ 0`. -/
def specRectEitherClamp (maxX maxY : ℕ) (cell : GridCellSpec) : Rect :=
  let unitX : ℚ := (maxX : ℚ) / 12
  let unitY : ℚ := (maxY : ℚ) / 12
  let x0 : ℤ := Int.floor ((cell.xPos : ℚ) * unitX)
  let y0 : ℤ := Int.floor ((cell.yPos : ℚ) * unitY)
  let x1 : ℤ := Int.floor (((cell.xPos : ℚ) + (cell.width : ℚ)) * unitX) - 1
  let y1 : ℤ := Int.floor (((cell.yPos : ℚ) + (cell.height : ℚ)) * unitY) - 1
  if x1 ≤ 0 ∨ y1 ≤ 0 then ⟨x0, y0, 1, 1⟩ else ⟨x0, y0, x1, y1⟩

/-- Same rectangle assignment, amended so that clamping requires both the
right edge and the bottom edge to be `≤ 0`. -/
def specRectBothClamp (maxX maxY : ℕ) (cell : GridCellSpec) : Rect :=
  let unitX : ℚ := (maxX : ℚ) / 12
  let unitY : ℚ := (maxY : ℚ) / 12
  let x0 : ℤ := Int.floor ((cell.xPos : ℚ) * unitX)
  let y0 : ℤ := Int.floor ((cell.yPos : ℚ) * unitY)
  let x1 : ℤ := Int.floor (((cell.xPos : ℚ) + (cell.width : ℚ)) * unitX) - 1
  let y1 : ℤ := Int.floor (((cell.yPos : ℚ) + (cell.height : ℚ)) * unitY) - 1
  if x1 ≤ 0 ∧ y1 ≤ 0 then ⟨x0, y0, 1, 1⟩ else ⟨x0, y0, x1, y1⟩

/-- Claim C4 as stated: the computed rectangle always agrees with the
formula that clamps when either edge is degenerate. -/
def layoutClampsOnEitherEdge : Prop :=
  ∀ (maxX maxY : ℕ) (cell : GridCellSpec),
    computeRect maxX maxY cell = specRectEitherClamp maxX maxY cell

/-- C4 counterexample: at terminal size 1×12, the cell named Sidebar with
width 3, height 12 at the origin gets right edge `int(3·(1/12)) − 1 = −1 ≤ 0`
but bottom edge `11 > 0`, and `GridLayout` does not clamp (its condition
conjoins the two tests), contradicting the claim's disjunctive clamp. -/
theorem c4_counterexample : ¬layoutClampsOnEitherEdge := by
  intro h
  have h2 := h 1 12 ⟨"Sidebar", 3, 12, 0, 0⟩
  rw [computeRect, specRectEitherClamp] at h2
  norm_num at h2

/-- C4 (amended): for every grid cell and terminal size, `GridLayout`
assigns the rectangle from `(xOffset·unitWidth, yOffset·unitHeight)` to
`((xOffset+width)·unitWidth − 1, (yOffset+height)·unitHeight − 1)` with
unit sizes `terminalWidth/12` and `terminalHeight/12`, truncated to
integers per corner; the result is clamped to a minimum 1×1 rectangle only
when the right edge and the bottom edge are both `≤ 0`. -/
theorem c4_amended_rect_formula :
    ∀ (maxX maxY : ℕ) (cell : GridCellSpec),
      computeRect maxX maxY cell = specRectBothClamp maxX maxY cell := by
  intro maxX maxY cell
  have hx : ((cell.xPos : ℚ) + (cell.width : ℚ)) * ((maxX : ℚ) / 12)
      = (cell.xPos : ℚ) * ((maxX : ℚ) / 12) + (cell.width : ℚ) * ((maxX : ℚ) / 12) := by
    ring
  have hy : ((cell.yPos : ℚ) + (cell.height : ℚ)) * ((maxY : ℚ) / 12)
      = (cell.yPos : ℚ) * ((maxY : ℚ) / 12) + (cell.height : ℚ) * ((maxY : ℚ) / 12) := by
    ring
  simp only [computeRect, specRectBothClamp, hx, hy]

/-! ## View registry and the layout pass (C8)

The registry of named views is the gocui view list.  `setViewGo` models
the terminal library's `SetView` exactly as the spec's layout contract
(§4.1) describes it: a view that already exists is resized in place with
its buffer, cursor and scroll untouched; an unknown name creates a fresh
empty view, and `GridLayout` then sets the fresh view's title
(src/main.go lines 157-163). -/

/-- Mutable per-view state: rectangle, title, content buffer, cursor and
scroll origin. -/
structure ViewState where
  rect : Rect
  title : String
  content : List String
  cursorX : ℕ
  cursorY : ℕ
  originX : ℕ
  originY : ℕ
deriving DecidableEq

/-- Fresh view made by the first `SetView` call for a name, with the title
`GridLayout` assigns on creation. -/
def freshView (name : String) (r : Rect) : ViewState :=
  { rect := r, title := name, content := [], cursorX := 0, cursorY := 0,
    originX := 0, originY := 0 }

/-- The `SetView` step on the registry: resize in place when the name
exists, create otherwise. -/
def setViewGo : List (String × ViewState) → String → Rect → List (String × ViewState)
  | [], n, r => [(n, freshView n r)]
  | (m, v) :: rest, n, r =>
      if m = n then (m, { v with rect := r }) :: rest
      else (m, v) :: setViewGo rest n r

/-- Lookup of a view by name in the registry. -/
def lookupView (n : String) : List (String × ViewState) → Option ViewState
  | [] => none
  | (m, v) :: rest => if n = m then some v else lookupView n rest

/-- Result of `SetView` for name `n` and rectangle `r` on a prior state:
resize the existing view or create a fresh one. -/
def resizeOr (n : String) (r : Rect) : Option ViewState → ViewState
  | some v => { v with rect := r }
  | none => freshView n r

/-- One pass of `GridLayout` over the whole grid: `SetView` for each cell
in order, with its computed rectangle. -/
def gridLayoutStep (maxX maxY : ℕ) (grid : List GridCellSpec)
    (reg : List (String × ViewState)) : List (String × ViewState) :=
  grid.foldl
    (fun reg2 cell => setViewGo reg2 cell.name (computeRect maxX maxY cell)) reg

/-- The grid declared in `main` (src/main.go lines 24-34). -/
def mainGrid : List GridCellSpec :=
  [⟨"Sidebar", 3, 10, 0, 0⟩, ⟨"command", 9, 12, 3, 0⟩, ⟨"help", 3, 2, 0, 10⟩]

/-- The last cell of the grid carrying a given view name; it determines
that view's rectangle after a full pass. -/
def lastCellFor (n : String) (grid : List GridCellSpec) : Option GridCellSpec :=
  grid.reverse.find? (fun c => c.name == n)

lemma resizeOr_resizeOr (n : String) (r r2 : Rect) (o : Option ViewState) :
    resizeOr n r (some (resizeOr n r2 o)) = resizeOr n r o := by
  cases o <;> rfl

lemma lookupView_setViewGo (reg : List (String × ViewState)) (m n : String)
    (r : Rect) :
    lookupView n (setViewGo reg m r)
      = if n = m then some (resizeOr m r (lookupView m reg))
        else lookupView n reg := by
  induction reg with
  | nil =>
      by_cases h : n = m <;> simp [setViewGo, lookupView, resizeOr, h]
  | cons p rest ih =>
      obtain ⟨k, v⟩ := p
      by_cases hk : k = m
      · subst hk
        by_cases h : n = k <;> simp [setViewGo, lookupView, resizeOr, h]
      · have hk2 : ¬m = k := fun hh => hk hh.symm
        by_cases h : n = k
        · subst h
          simp [setViewGo, hk, lookupView, hk2]
        · simp [setViewGo, hk, lookupView, h, hk2, ih]

lemma lookupView_gridLayoutStep (mx my : ℕ) (grid : List GridCellSpec)
    (reg : List (String × ViewState)) (n : String) :
    lookupView n (gridLayoutStep mx my grid reg)
      = match lastCellFor n grid with
        | none => lookupView n reg
        | some c => some (resizeOr n (computeRect mx my c) (lookupView n reg)) := by
  induction grid generalizing reg with
  | nil => simp [gridLayoutStep, lastCellFor]
  | cons c grid ih =>
      have hstep : gridLayoutStep mx my (c :: grid) reg
          = gridLayoutStep mx my grid (setViewGo reg c.name (computeRect mx my c)) := by
        simp [gridLayoutStep]
      have hlast : lastCellFor n (c :: grid)
          = (lastCellFor n grid).or
              (if c.name = n then some c else none) := by
        unfold lastCellFor
        rw [List.reverse_cons, List.find?_append, List.find?_singleton]
        by_cases hcn : c.name = n
        · simp [hcn]
        · simp [hcn]
      rw [hstep, ih, hlast, lookupView_setViewGo]
      cases hlc : lastCellFor n grid with
      | some c2 =>
          by_cases hcn : c.name = n
          · subst hcn
            simp [Option.or, resizeOr_resizeOr]
          · have hcn2 : ¬n = c.name := fun hh => hcn hh.symm
            simp [Option.or, hcn2]
      | none =>
          by_cases hcn : c.name = n
          · subst hcn
            simp [Option.or]
          · have hcn2 : ¬n = c.name := fun hh => hcn hh.symm
            simp [Option.or, hcn, hcn2]

/-- C8: recomputing the layout with the same terminal size and the same
cell list is idempotent on every view, and a view that already exists
keeps its content buffer, cursor and scroll across the recomputation (only
its rectangle is updated in place). -/
theorem c8_layout_idempotent_preserves (mx my : ℕ) (grid : List GridCellSpec)
    (reg : List (String × ViewState)) (n : String) :
    lookupView n (gridLayoutStep mx my grid (gridLayoutStep mx my grid reg))
      = lookupView n (gridLayoutStep mx my grid reg) ∧
    ∀ v, lookupView n reg = some v →
      (lookupView n (gridLayoutStep mx my grid reg)).map ViewState.content
          = some v.content ∧
      (lookupView n (gridLayoutStep mx my grid reg)).map ViewState.cursorX
          = some v.cursorX ∧
      (lookupView n (gridLayoutStep mx my grid reg)).map ViewState.cursorY
          = some v.cursorY ∧
      (lookupView n (gridLayoutStep mx my grid reg)).map ViewState.originX
          = some v.originX ∧
      (lookupView n (gridLayoutStep mx my grid reg)).map ViewState.originY
          = some v.originY := by
  constructor
  · simp only [lookupView_gridLayoutStep]
    cases hlc : lastCellFor n grid with
    | none => rfl
    | some c => simp [resizeOr_resizeOr]
  · intro v hv
    rw [lookupView_gridLayoutStep]
    cases hlc : lastCellFor n grid with
    | none => rw [hv]; exact ⟨rfl, rfl, rfl, rfl, rfl⟩
    | some c => rw [hv]; exact ⟨rfl, rfl, rfl, rfl, rfl⟩

/-- Sample Sidebar view used in the closed instance of C8: a populated
buffer with cursor and scroll at the origin. -/
def sampleSidebar : ViewState :=
  { rect := ⟨0, 0, 1, 1⟩
    title := "Makefile Targets"
    content := ["build"]
    cursorX := 0
    cursorY := 0
    originX := 0
    originY := 0 }

/-- Closed instance of C8 at the program's own grid: the Sidebar view of a
one-view registry survives a layout pass with its buffer, cursor and
scroll intact, at terminal size 80×24. -/
theorem c8_layout_idempotent_preserves_witness :
    (lookupView "Sidebar"
        (gridLayoutStep 80 24 mainGrid [("Sidebar", sampleSidebar)])).map
          ViewState.content = some sampleSidebar.content ∧
    (lookupView "Sidebar"
        (gridLayoutStep 80 24 mainGrid [("Sidebar", sampleSidebar)])).map
          ViewState.cursorX = some sampleSidebar.cursorX ∧
    (lookupView "Sidebar"
        (gridLayoutStep 80 24 mainGrid [("Sidebar", sampleSidebar)])).map
          ViewState.cursorY = some sampleSidebar.cursorY ∧
    (lookupView "Sidebar"
        (gridLayoutStep 80 24 mainGrid [("Sidebar", sampleSidebar)])).map
          ViewState.originX = some sampleSidebar.originX ∧
    (lookupView "Sidebar"
        (gridLayoutStep 80 24 mainGrid [("Sidebar", sampleSidebar)])).map
          ViewState.originY = some sampleSidebar.originY :=
  (c8_layout_idempotent_preserves 80 24 mainGrid
      [("Sidebar", sampleSidebar)] "Sidebar").2 sampleSidebar (by rfl)

/-! ## First render pass: populating the selection view
(`initViews`, src/main.go lines 98-124)

`initViews` writes one line per catalog entry into the Sidebar view with
`for target, _ := range targetsMap`.  Go leaves the iteration order of a
map range unspecified (and randomizes it), so an enumeration of the
catalog is modelled as an arbitrary permutation of its entries. -/

/-- The sequence of lines `initViews` writes into the Sidebar view, given
the order in which the Go `range` loop happens to enumerate the map. -/
def initSidebarLines (enumOrder : List (String × String)) : List String :=
  enumOrder.map Prod.fst

/-- Claim C3 as stated: the initial population is deterministic — any two
enumerations of the same catalog produce the identical sequence of
selection-view lines. -/
def initPopulationDeterministic : Prop :=
  ∀ (catalog e1 e2 : List (String × String)),
    e1.Perm catalog → e2.Perm catalog →
    initSidebarLines e1 = initSidebarLines e2

/-- C3 counterexample: a two-target catalog enumerated in the two opposite
orders (both legitimate Go map iteration orders) yields two different
Sidebar line sequences, so the initial population is not deterministic and
in particular not key-sorted. -/
theorem c3_counterexample : ¬initPopulationDeterministic := by
  intro h
  have h2 := h [("build", "b"), ("test", "t")]
      [("build", "b"), ("test", "t")] [("test", "t"), ("build", "b")]
      (List.Perm.refl _) (List.Perm.swap ("build", "b") ("test", "t") [])
  simp [initSidebarLines] at h2

/-- C3 (amended): the first render pass populates the selection view with
every catalog key exactly once — the written lines are a permutation of
the keys — but in the unspecified Go map enumeration order, which need not
be sorted nor reproducible between runs. -/
theorem c3_amended_population_perm
    (catalog enumOrder : List (String × String))
    (h : enumOrder.Perm catalog) :
    (initSidebarLines enumOrder).Perm (catalog.map Prod.fst) :=
  h.map Prod.fst

/-- Closed instance of the amended C3: a reversed enumeration of a
two-target catalog still writes exactly the two keys. -/
theorem c3_amended_population_perm_witness :
    (initSidebarLines [("test", "t"), ("build", "b")]).Perm
      (([("build", "b"), ("test", "t")] : List (String × String)).map Prod.fst) :=
  c3_amended_population_perm [("build", "b"), ("test", "t")]
    [("test", "t"), ("build", "b")]
    (List.Perm.swap ("build", "b") ("test", "t") [])

/-! ## Documentation panel update (`updateViews`, src/main.go lines 73-96) -/

/-- The part of the help view's state that `updateViews` touches: its
content and its wrap flag. -/
structure HelpView where
  content : String
  wrap : Bool
deriving DecidableEq

/-- String-keyed Go map lookup as an `Option`. -/
def lookupS (k : String) : List (String × String) → Option String
  | [] => none
  | (k2, v) :: rest => if k = k2 then some v else lookupS k rest

/-- The line under the Sidebar cursor as `updateViews` reads it:
`v.Line(cy)` with the returned error ignored, which leaves the empty
string when the cursor is outside the buffer. -/
def lineUnderCursor (sidebarLines : List String) (cy : ℕ) : String :=
  (sidebarLines.get? cy).getD ""

/-- The documentation text `updateViews` writes: `targetsMap[line]` when
the line is nonempty (the Go map yields its zero value `""` for an absent
key), and `""` for an empty line. -/
def docFor (catalog : List (String × String)) (line : String) : String :=
  if line = "" then "" else (lookupS line catalog).getD ""

/-- One run of `updateViews`: clear the help view, write the documentation
of the highlighted line, and enable wrapping only when that documentation
is nonempty — wrapping is never turned off. -/
def updateViewsStep (catalog : List (String × String))
    (sidebarLines : List String) (cy : ℕ) (h : HelpView) : HelpView :=
  let doc := docFor catalog (lineUnderCursor sidebarLines cy)
  { content := doc, wrap := if doc ≠ "" then true else h.wrap }

lemma updateViewsStep_wrap (catalog : List (String × String))
    (sidebarLines : List String) (cy : ℕ) (h : HelpView) :
    (updateViewsStep catalog sidebarLines cy h).wrap
      = (h.wrap || decide (docFor catalog (lineUnderCursor sidebarLines cy) ≠ "")) := by
  unfold updateViewsStep
  by_cases hd : docFor catalog (lineUnderCursor sidebarLines cy) = "" <;>
    simp [hd]

/-- C10: the help view's wrap flag is monotone — one update step sets it
exactly to (previous value ∨ documentation nonempty), and over any
sequence of later update steps, whatever is highlighted (including empty
lines and lines absent from the catalog), an enabled wrap flag stays
enabled. -/
theorem c10_wrap_monotone :
    (∀ (catalog : List (String × String)) (sidebarLines : List String)
      (cy : ℕ) (h : HelpView),
      (updateViewsStep catalog sidebarLines cy h).wrap
        = (h.wrap || decide (docFor catalog (lineUnderCursor sidebarLines cy) ≠ ""))) ∧
    (∀ (catalog : List (String × String)) (steps : List (List String × ℕ))
      (h : HelpView), h.wrap = true →
      (steps.foldl (fun hv p => updateViewsStep catalog p.1 p.2 hv) h).wrap = true) := by
  refine ⟨updateViewsStep_wrap, fun catalog steps => ?_⟩
  induction steps with
  | nil => intro h hw; exact hw
  | cons p rest ih =>
      intro h hw
      rw [List.foldl_cons]
      refine ih _ ?_
      rw [updateViewsStep_wrap, hw, Bool.true_or]

/-- Closed instance of C10: with wrap already enabled, highlighting an
out-of-range line and then a line absent from the catalog leaves wrap
enabled. -/
theorem c10_wrap_monotone_witness :
    (([(([] : List String), 5), (["clean"], 0)] : List (List String × ℕ)).foldl
        (fun hv p => updateViewsStep [("build", "compile")] p.1 p.2 hv)
        { content := "compile", wrap := true }).wrap = true :=
  c10_wrap_monotone.2 [("build", "compile")] [(([] : List String), 5), (["clean"], 0)]
    { content := "compile", wrap := true } rfl

/-! ## Command execution and the output pump
(`executeCommand`, src/main.go lines 227-277)

`executeCommand` reads the highlighted line, then enqueues an update that
clears the `command` view, spawns `make <line>`, and launches a pump
goroutine which enqueues one further update per line of the process's
standard output.  All updates are drained FIFO by the gocui main loop.
The enqueued closures write to the shared `command` view unconditionally;
the generation number recorded below is ghost bookkeeping of which
execution enqueued an update — the code itself carries no such tag. -/

/-- A queued `g.Update` closure affecting the output view: the clear done
at the start of an execution, or the append of one output line by a pump.
`gen` records the enqueuing execution and is ignored by the code. -/
inductive QUpdate where
  | clear (gen : ℕ)
  | append (gen : ℕ) (line : String)
deriving DecidableEq

/-- Effect of one queued update on the output view's content buffer:
`cmdView.Clear()` empties it, `fmt.Fprintln(cmdView, line)` appends —
unconditionally, whichever execution enqueued the update. -/
def applyUpdate (buf : List String) : QUpdate → List String
  | QUpdate.clear _ => []
  | QUpdate.append _ l => buf ++ [l]

/-- The render loop draining a queue of updates in FIFO order. -/
def runQueue (q : List QUpdate) (buf : List String) : List String :=
  q.foldl applyUpdate buf

/-- Claim C1 as stated, on the update-queue semantics: once execution `g2`
has started (its clear has run), a line arriving from a different, stale
execution `g1` is silently discarded and never appears in the buffer. -/
def staleLinesDiscarded : Prop :=
  ∀ (buf : List String) (g1 g2 : ℕ) (l : String), g1 ≠ g2 →
    l ∉ runQueue [QUpdate.clear g2, QUpdate.append g1 l] buf

/-- C1 counterexample: after execution 2's clear, a late line enqueued by
execution 1's still-running pump is appended all the same — the code has
no generation filter — so the stale line does appear in the buffer. -/
theorem c1_counterexample : ¬staleLinesDiscarded := by
  intro h
  exact (h [] 1 2 "stale line from G1" (by decide))
    (by simp [runQueue, applyUpdate])

lemma runQueue_all_appends (q : List QUpdate) (buf : List String)
    (h : ∀ u ∈ q, ∃ g l, u = QUpdate.append g l) :
    runQueue q buf
      = buf ++ q.filterMap (fun u => match u with
          | QUpdate.append _ l => some l
          | QUpdate.clear _ => none) := by
  induction q generalizing buf with
  | nil => simp [runQueue]
  | cons u rest ih =>
      obtain ⟨g, l, rfl⟩ := h u (List.mem_cons_self u rest)
      have hrest : ∀ u2 ∈ rest, ∃ g2 l2, u2 = QUpdate.append g2 l2 :=
        fun u2 hu2 => h u2 (List.mem_cons_of_mem _ hu2)
      unfold runQueue at ih ⊢
      rw [List.foldl_cons]
      simp only [applyUpdate]
      rw [ih (buf ++ [l]) hrest]
      simp

/-- C1 (amended): the code has no generation tagging — after the clear
triggered when a new execution starts, every subsequently drained append,
from whichever execution's pump, is written to the buffer: the buffer ends
up holding the appended lines of all executions interleaved in queue
order, stale ones included. -/
theorem c1_amended_no_generation_filter
    (buf : List String) (g2 : ℕ) (tail : List QUpdate)
    (h : ∀ u ∈ tail, ∃ g l, u = QUpdate.append g l) :
    runQueue (QUpdate.clear g2 :: tail) buf
      = tail.filterMap (fun u => match u with
          | QUpdate.append _ l => some l
          | QUpdate.clear _ => none) := by
  unfold runQueue
  rw [List.foldl_cons]
  have h2 := runQueue_all_appends tail [] h
  unfold runQueue at h2
  simpa [applyUpdate] using h2

/-- Closed instance of the amended C1: after execution 2's clear, a late
line from execution 1 and a line from execution 2 both land in the buffer,
in queue order. -/
theorem c1_amended_no_generation_filter_witness :
    runQueue [QUpdate.clear 2, QUpdate.append 1 "late line from G1",
      QUpdate.append 2 "line from G2"] []
      = ["late line from G1", "line from G2"] := by
  have h := c1_amended_no_generation_filter [] 2
    [QUpdate.append 1 "late line from G1", QUpdate.append 2 "line from G2"]
    (by simp)
  simpa using h

/-- The pump goroutine of one execution enqueues one append per line read
from the process's standard output, in stream order; if the scanner then
reports a read error, one diagnostic line is enqueued after them
(src/main.go lines 256-271). -/
def pumpUpdates (gen : ℕ) (streamLines : List String)
    (readErr : Option String) : List QUpdate :=
  streamLines.map (QUpdate.append gen) ++
    (match readErr with
     | some e => [QUpdate.append gen ("Error reading command output: " ++ e)]
     | none => [])

/-- C7: for a single error-free execution, draining the pump's updates
appends to the output buffer exactly the lines the process emitted on its
standard output, in emission order. -/
theorem c7_stream_order_preserved (gen : ℕ) (streamLines buf : List String) :
    runQueue (pumpUpdates gen streamLines none) buf = buf ++ streamLines := by
  induction streamLines generalizing buf with
  | nil => simp [pumpUpdates, runQueue]
  | cons l rest ih =>
      unfold pumpUpdates at ih ⊢
      simp only [List.map_cons, List.cons_append]
      unfold runQueue
      rw [List.foldl_cons]
      have h2 := ih (buf ++ [l])
      unfold runQueue at h2
      simpa [applyUpdate] using h2

/-- Outcome of spawning the external process: the stdout pipe creation and
the process start may each fail. -/
inductive SpawnOutcome where
  | ok
  | pipeFail (msg : String)
  | startFail (msg : String)
deriving DecidableEq

/-- One attempted invocation of an external program. -/
structure SpawnCall where
  prog : String
  args : List String
deriving DecidableEq

/-- An error value crossing the render-loop boundary. -/
inductive GoError where
  | errQuit
  | other (msg : String)
deriving DecidableEq

/-- Fate of the program after the main loop returns. -/
inductive LoopFate where
  | running
  | cleanExit
  | panicked (msg : String)
deriving DecidableEq

/-- The main-loop guard in `main` (src/main.go lines 68-70): no error
keeps the loop running, `gocui.ErrQuit` exits cleanly, and any other error
reaches `log.Panicln`, terminating the program. -/
def mainLoopOutcome : Option GoError → LoopFate
  | none => LoopFate.running
  | some GoError.errQuit => LoopFate.cleanExit
  | some (GoError.other m) => LoopFate.panicked m

/-- Observable effect of one execute-selected event: the output view's
buffer afterwards, the spawn attempts made, and the error (if any) the
handler or its queued update returns to the loop. -/
structure ExecEffect where
  outBuffer : List String
  spawns : List SpawnCall
  result : Option GoError
deriving DecidableEq

/-- The execute-selected handler and its queued update (src/main.go lines
227-277): read the highlighted line (returning the error when the cursor
is outside the buffer), clear the `command` view, create the stdout pipe,
then start `make <line>`; a pipe or start error is returned from the
update closure, with no diagnostic written to the view. -/
def execCommandUpdate (sidebarLines : List String) (cy : ℕ)
    (outcome : SpawnOutcome) (buf : List String) : ExecEffect :=
  match sidebarLines.get? cy with
  | none =>
      { outBuffer := buf, spawns := [],
        result := some (GoError.other "invalid point") }
  | some line =>
      match outcome with
      | SpawnOutcome.pipeFail msg =>
          { outBuffer := [], spawns := [],
            result := some (GoError.other msg) }
      | SpawnOutcome.startFail msg =>
          { outBuffer := [], spawns := [{ prog := "make", args := [line] }],
            result := some (GoError.other msg) }
      | SpawnOutcome.ok =>
          { outBuffer := [], spawns := [{ prog := "make", args := [line] }],
            result := none }

/-- C6: an execute-selected event whose stdout-pipe creation succeeds
attempts to spawn the external build tool exactly once, invoked with the
currently highlighted selection-view line as its sole argument. -/
theorem c6_single_spawn (sidebarLines : List String) (cy : ℕ) (line : String)
    (outcome : SpawnOutcome) (buf : List String)
    (hl : sidebarLines.get? cy = some line)
    (hp : ∀ msg, outcome ≠ SpawnOutcome.pipeFail msg) :
    (execCommandUpdate sidebarLines cy outcome buf).spawns
      = [{ prog := "make", args := [line] }] := by
  unfold execCommandUpdate
  rw [hl]
  cases outcome with
  | ok => rfl
  | startFail msg => rfl
  | pipeFail msg => exact absurd rfl (hp msg)

/-- Closed instance of C6: confirming on the highlighted line `build`
spawns `make build` exactly once. -/
theorem c6_single_spawn_witness :
    (execCommandUpdate ["build"] 0 SpawnOutcome.ok []).spawns
      = [{ prog := "make", args := ["build"] }] :=
  c6_single_spawn ["build"] 0 "build" SpawnOutcome.ok [] rfl
    (fun _ h => SpawnOutcome.noConfusion h)

/-- Claim C2 as stated: a process-spawn failure writes exactly one
diagnostic line into the output view and the render loop keeps running. -/
def spawnFailureInlineReported : Prop :=
  ∀ (sidebarLines : List String) (cy : ℕ) (line msg : String)
    (buf : List String), sidebarLines.get? cy = some line →
    (∃ d, (execCommandUpdate sidebarLines cy (SpawnOutcome.startFail msg) buf).outBuffer
        = [d]) ∧
    mainLoopOutcome
        (execCommandUpdate sidebarLines cy (SpawnOutcome.startFail msg) buf).result
      = LoopFate.running

/-- C2 counterexample: when `cmd.Start()` fails for the highlighted target
`build`, no diagnostic is written (the output view stays just-cleared) and
the error propagates to `log.Panicln`, terminating the program. -/
theorem c2_counterexample : ¬spawnFailureInlineReported := by
  intro h
  have h2 := h ["build"] 0 "build" "fork failed" [] rfl
  rcases h2.1 with ⟨d, hd⟩
  simp [execCommandUpdate] at hd

/-- C2 (amended): a process-spawn failure writes no diagnostic line — the
output view is left empty from the preceding clear — and the error
propagates out of the queued update, so the main-loop guard panics and the
program terminates. -/
theorem c2_amended_spawn_failure_panics (sidebarLines : List String)
    (cy : ℕ) (line msg : String) (buf : List String)
    (hl : sidebarLines.get? cy = some line) :
    (execCommandUpdate sidebarLines cy (SpawnOutcome.startFail msg) buf).outBuffer
        = [] ∧
    mainLoopOutcome
        (execCommandUpdate sidebarLines cy (SpawnOutcome.startFail msg) buf).result
      = LoopFate.panicked msg := by
  unfold execCommandUpdate
  rw [hl]
  exact ⟨rfl, rfl⟩

/-- Closed instance of the amended C2 at the failing input: target
`build` highlighted, `cmd.Start()` failing with `fork failed`. -/
theorem c2_amended_spawn_failure_panics_witness :
    (execCommandUpdate ["build"] 0 (SpawnOutcome.startFail "fork failed") []).outBuffer
        = [] ∧
    mainLoopOutcome
        (execCommandUpdate ["build"] 0 (SpawnOutcome.startFail "fork failed") []).result
      = LoopFate.panicked "fork failed" :=
  c2_amended_spawn_failure_panics ["build"] 0 "build" "fork failed" [] rfl

end IMake
